import Mathlib

/-!
Verification development for the oam-tools repository (viz traversal,
oam_track delta selection, oam_subs ASN aggregation).

The graph store (asset-db) is an external collaborator; it is modelled as a
concrete record `AssetDB` holding the asset records, the relations, and the
result of the initial `FindByScope` query (which may fail).  Timestamps are
modelled as natural numbers of seconds since an epoch that falls on a
24-hour boundary of the Go zero time, with 0 playing the role of the zero
`time.Time` (`IsZero`).
-/

namespace Oam

/-- The asset kinds of the open-asset-model taxonomy used by the tools. -/
inductive AssetKind where
  | FQDN | IPAddress | Netblock | ASN | RIROrganization
  | AutnumRecord | SocketAddress | NetworkEndpoint | ContactRecord
  | EmailAddress | Location | Phone | Fingerprint | Organization
  | Person | TLSCertificate | URL | DomainRecord | Source | Service
deriving DecidableEq, Repr

/-- String form of an asset kind, as returned by the Go method `AssetType()`. -/
def AssetKind.str : AssetKind → String
  | .FQDN => "FQDN"
  | .IPAddress => "IPAddress"
  | .Netblock => "Netblock"
  | .ASN => "ASN"
  | .RIROrganization => "RIROrg"
  | .AutnumRecord => "AutnumRecord"
  | .SocketAddress => "SocketAddress"
  | .NetworkEndpoint => "NetworkEndpoint"
  | .ContactRecord => "ContactRecord"
  | .EmailAddress => "EmailAddress"
  | .Location => "Location"
  | .Phone => "Phone"
  | .Fingerprint => "Fingerprint"
  | .Organization => "Organization"
  | .Person => "Person"
  | .TLSCertificate => "TLSCertificate"
  | .URL => "URL"
  | .DomainRecord => "DomainRecord"
  | .Source => "Source"
  | .Service => "Service"

/-- An open-asset-model asset value.  Each constructor carries the fields the
tools actually read: the canonical content key (`Key()`), and the extra
fields used by the type switch of `newNode` (autnum handle, TLS serial number,
location address parts) and by the ASN aggregation (ASN number). -/
inductive OAMAsset where
  | fqdn (name : String)
  | ipAddress (address : String)
  | netblock (cidr : String)
  | autonomousSystem (number : Int)
  | rirOrganization (name : String)
  | autnumRecord (handle : String) (key0 : String)
  | socketAddress (address : String)
  | networkEndpoint (address : String)
  | contactRecord (key0 : String)
  | emailAddress (address : String)
  | location (key0 buildingNumber streetName city province postalCode : String)
  | phone (raw : String)
  | fingerprint (value : String)
  | organization (name : String)
  | person (fullName : String)
  | tlsCertificate (serialNumber : String) (key0 : String)
  | url (raw : String)
  | domainRecord (key0 : String)
  | source (name : String)
  | service (identifier : String)
deriving DecidableEq, Repr

/-- The kind of the asset (Go `AssetType()`). -/
def OAMAsset.kind : OAMAsset → AssetKind
  | .fqdn _ => .FQDN
  | .ipAddress _ => .IPAddress
  | .netblock _ => .Netblock
  | .autonomousSystem _ => .ASN
  | .rirOrganization _ => .RIROrganization
  | .autnumRecord _ _ => .AutnumRecord
  | .socketAddress _ => .SocketAddress
  | .networkEndpoint _ => .NetworkEndpoint
  | .contactRecord _ => .ContactRecord
  | .emailAddress _ => .EmailAddress
  | .location _ _ _ _ _ _ => .Location
  | .phone _ => .Phone
  | .fingerprint _ => .Fingerprint
  | .organization _ => .Organization
  | .person _ => .Person
  | .tlsCertificate _ _ => .TLSCertificate
  | .url _ => .URL
  | .domainRecord _ => .DomainRecord
  | .source _ => .Source
  | .service _ => .Service

/-- The canonical content key of the asset (Go `Key()`). -/
def OAMAsset.key : OAMAsset → String
  | .fqdn name => name
  | .ipAddress address => address
  | .netblock cidr => cidr
  | .autonomousSystem number => toString number
  | .rirOrganization name => name
  | .autnumRecord _ key0 => key0
  | .socketAddress address => address
  | .networkEndpoint address => address
  | .contactRecord key0 => key0
  | .emailAddress address => address
  | .location key0 _ _ _ _ _ => key0
  | .phone raw => raw
  | .fingerprint value => value
  | .organization name => name
  | .person fullName => fullName
  | .tlsCertificate _ key0 => key0
  | .url raw => raw
  | .domainRecord key0 => key0
  | .source name => name
  | .service identifier => identifier

/-- A stored asset record (Go `types.Asset`): store id, the asset value (a
nil interface is `none`), and the creation / last-seen timestamps. -/
structure ARecord where
  id : Nat
  asset : Option OAMAsset
  createdAt : Nat
  lastSeen : Nat
deriving DecidableEq, Repr

/-- A directed labeled relation between two stored records (Go
`types.Relation`), referring to the records by store id. -/
structure Relation where
  rtype : String
  fromId : Nat
  toId : Nat
deriving DecidableEq, Repr

/-- The external graph store, fixed for one tool invocation: its records,
its relations, and the outcome of the initial `FindByScope` query for the
scope at hand (`none` models a query error). -/
structure AssetDB where
  assets : List ARecord
  rels : List Relation
  scopeRes : Option (List ARecord)
deriving DecidableEq, Repr

/-- `FindById`: look a record up by store id; `none` models a failed query. -/
def findById (db : AssetDB) (i : Nat) : Option ARecord :=
  db.assets.find? (fun a => a.id = i)

/-- `OutgoingRelations`, restricted to the given labels (an empty label list
means no restriction, matching the Go variadic parameter). -/
def outgoingRelations (db : AssetDB) (a : ARecord) (labels : List String) : List Relation :=
  db.rels.filter (fun r => r.fromId = a.id ∧ (labels = [] ∨ r.rtype ∈ labels))

/-- `IncomingRelations`, restricted to the given labels (an empty label list
means no restriction). -/
def incomingRelations (db : AssetDB) (a : ARecord) (labels : List String) : List Relation :=
  db.rels.filter (fun r => r.toId = a.id ∧ (labels = [] ∨ r.rtype ∈ labels))

/-- An Amass graph node of the viz package. -/
structure Node where
  ID : Nat
  NType : String
  Label : String
  Title : String
deriving DecidableEq, Repr

/-- An Amass graph edge of the viz package. -/
structure Edge where
  From : Nat
  To : Nat
  Label : String
  Title : String
deriving DecidableEq, Repr

/-- viz `newNode`: derive the projected node of a record, or `none` ("no
node") when the record / underlying asset is absent, the content key is
empty, the record is a Source, or a check asset (network endpoint, socket
address) carries no outgoing "service" relation. -/
def newNode (db : AssetDB) (idx : Nat) (a : Option ARecord) : Option Node :=
  match a with
  | none => none
  | some r =>
    match r.asset with
    | none => none
    | some x =>
      let key := x.key
      if key = "" then none
      else
        let atype := x.kind.str
        if atype = AssetKind.Source.str then none
        else
          let key1 :=
            match x with
            | .autnumRecord handle _ => handle ++ " - " ++ key
            | .contactRecord _ => "Found->" ++ key
            | .location _ b s c p z => String.intercalate " " [b, s, c, p, z]
            | .domainRecord _ => "WHOIS: " ++ key
            | .tlsCertificate serial _ => "x509 Serial Number: " ++ serial
            | _ => key
          let check : Bool :=
            match x with
            | .networkEndpoint _ => true
            | .socketAddress _ => true
            | _ => false
          if check ∧ outgoingRelations db r ["service"] = [] then none
          else some ⟨idx, atype, key1, atype ++ ": " ++ key1⟩

/-- Go `strings.ToLower`, character by character. -/
def toLowerStr (s : String) : String :=
  String.mk (s.data.map Char.toLower)

/-- Go `strings.TrimSpace`: drop whitespace at both ends. -/
def trimStr (s : String) : String :=
  String.mk (((s.data.dropWhile Char.isWhitespace).reverse.dropWhile Char.isWhitespace).reverse)

/-- Go `strings.HasSuffix`. -/
def endsWithStr (s suffixStr : String) : Bool :=
  suffixStr.data.isSuffixOf s.data

/-- viz `domainNameInScope`: is `name` equal to, or a subdomain of, one of
the root domain names of the scope? -/
def domainNameInScope (name : String) (scope : List String) : Bool :=
  let n := toLowerStr (trimStr name)
  scope.any (fun d =>
    let d := toLowerStr d
    n == d || endsWithStr n ("." ++ d))

/-- Association-list lookup keyed by decidable equality (models a Go map
read). -/
def lookupA {α β : Type} [DecidableEq α] : List (α × β) → α → Option β
  | [], _ => none
  | (k1, v) :: rest, k => if k1 = k then some v else lookupA rest k

/-- Association-list update-or-insert (models a Go map write). -/
def updateA {α β : Type} [DecidableEq α] : List (α × β) → α → β → List (α × β)
  | [], k, v => [(k, v)]
  | (k1, v1) :: rest, k, v =>
    if k1 = k then (k, v) :: rest else (k1, v1) :: updateA rest k v

/-- The mutable state of one `VizData` traversal: the next free index, the
label-to-index table, the accumulated node and edge lists, and the frontier
being built for the next level. -/
structure VizState where
  idx : Nat
  nodeToIdx : List (String × Nat)
  nodes : List Node
  edges : List Edge
  next : List ARecord
deriving DecidableEq, Repr

/-- Per-type expansion policy decided by the `switch` in `VizData`: whether
to follow outgoing / incoming relations and to which labels to restrict. -/
structure Policy where
  out : Bool
  outRels : List String
  inn : Bool
  inRels : List String
deriving DecidableEq, Repr

/-- The `switch a.Asset.AssetType()` of `VizData`, as a policy table. -/
def assetPolicy (domains : List String) (label : String) : AssetKind → Policy
  | .FQDN => ⟨true, [], domainNameInScope label domains, []⟩
  | .IPAddress => ⟨true, [], true, ["contains"]⟩
  | .Netblock => ⟨false, [], true, ["announces"]⟩
  | .ASN => ⟨true, ["registration"], false, []⟩
  | .AutnumRecord => ⟨true, [], false, []⟩
  | .SocketAddress => ⟨true, [], false, []⟩
  | .NetworkEndpoint => ⟨true, [], false, []⟩
  | .ContactRecord => ⟨true, [], false, []⟩
  | .EmailAddress => ⟨true, [], false, []⟩
  | .Location => ⟨true, [], false, []⟩
  | .Phone => ⟨true, [], false, []⟩
  | .Fingerprint => ⟨false, [], false, []⟩
  | .Organization => ⟨true, [], false, []⟩
  | .Person => ⟨true, [], false, []⟩
  | .TLSCertificate => ⟨true, [], false, []⟩
  | .URL => ⟨true, [], false, []⟩
  | .DomainRecord => ⟨true, [], false, []⟩
  | .Source => ⟨false, [], false, []⟩
  | .Service => ⟨true, [], false, []⟩
  | .RIROrganization => ⟨false, [], false, []⟩

/-- The kind of the asset held by a record (Go `a.Asset.AssetType()`; only evaluated
on records whose asset is present). -/
def ARecord.kind (a : ARecord) : AssetKind :=
  match a.asset with
  | some x => x.kind
  | none => .Source

/-- One iteration of the outgoing-relation loop of `VizData` (resolve the
target of the relation, dedup its node, enqueue it when newly discovered, record
the edge). -/
def processOutRel (db : AssetDB) (fromID : Nat) (st : VizState) (rel : Relation) : VizState :=
  match findById db rel.toId with
  | none => st
  | some tgt =>
    match newNode db st.idx (some tgt) with
    | none => st
    | some n2 =>
      match lookupA st.nodeToIdx n2.Label with
      | none =>
        { st with
          idx := st.idx + 1
          nodeToIdx := (n2.Label, st.idx) :: st.nodeToIdx
          nodes := st.nodes ++ [n2]
          next := st.next ++ [tgt]
          edges := st.edges ++ [⟨fromID, st.idx, rel.rtype, rel.rtype⟩] }
      | some nid =>
        { st with edges := st.edges ++ [⟨fromID, nid, rel.rtype, rel.rtype⟩] }

/-- The outgoing-relation loop of `VizData`. -/
def processOutRels (db : AssetDB) (fromID : Nat) : VizState → List Relation → VizState
  | st, [] => st
  | st, rel :: rest => processOutRels db fromID (processOutRel db fromID st rel) rest

/-- One iteration of the incoming-relation loop of `VizData`: symmetric to
`processOutRel`, except that a newly discovered source record of a
"ptr_record" relation is not enqueued for further expansion. -/
def processInRel (db : AssetDB) (toID : Nat) (st : VizState) (rel : Relation) : VizState :=
  match findById db rel.fromId with
  | none => st
  | some fr =>
    match newNode db st.idx (some fr) with
    | none => st
    | some n2 =>
      match lookupA st.nodeToIdx n2.Label with
      | none =>
        { st with
          idx := st.idx + 1
          nodeToIdx := (n2.Label, st.idx) :: st.nodeToIdx
          nodes := st.nodes ++ [n2]
          next := if rel.rtype ≠ "ptr_record" then st.next ++ [fr] else st.next
          edges := st.edges ++ [⟨st.idx, toID, rel.rtype, rel.rtype⟩] }
      | some nid =>
        { st with edges := st.edges ++ [⟨nid, toID, rel.rtype, rel.rtype⟩] }

/-- The incoming-relation loop of `VizData`. -/
def processInRels (db : AssetDB) (toID : Nat) : VizState → List Relation → VizState
  | st, [] => st
  | st, rel :: rest => processInRels db toID (processInRel db toID st rel) rest

/-- The relation-following part of one frontier step of `VizData`: follow
the outgoing and then the incoming relations of the record according to the
per-type policy, from/to the node index `id` the record was assigned. -/
def expandRels (db : AssetDB) (domains : List String) (a : ARecord) (label : String)
    (id : Nat) (st1 : VizState) : VizState :=
  let pol := assetPolicy domains label a.kind
  let st2 :=
    if pol.out then processOutRels db id st1 (outgoingRelations db a pol.outRels) else st1
  if pol.inn then processInRels db id st2 (incomingRelations db a pol.inRels) else st2

/-- Processing of one frontier record in `VizData`: compute its node (skip
when "no node"), dedup/assign its index, then follow outgoing and incoming
relations according to the per-type policy. -/
def processAsset (db : AssetDB) (domains : List String) (st : VizState) (a : ARecord) : VizState :=
  match newNode db st.idx (some a) with
  | none => st
  | some n =>
    match lookupA st.nodeToIdx n.Label with
    | none =>
      expandRels db domains a n.Label st.idx
        { st with
          idx := st.idx + 1
          nodeToIdx := (n.Label, st.idx) :: st.nodeToIdx
          nodes := st.nodes ++ [n] }
    | some nid => expandRels db domains a n.Label nid st

/-- The outer frontier loop of `VizData`, consuming one level per fuel
unit (the Go loop runs until the frontier is empty; the fuel passed by
`vizFinalState` dominates the number of levels, which is bounded by the
number of distinct labels the store can produce). -/
def vizLoop (db : AssetDB) (domains : List String) : Nat → VizState → VizState
  | 0, st => st
  | fuel + 1, st =>
    if st.next.isEmpty then st
    else
      let assets := st.next
      let st1 := { st with next := [] }
      vizLoop db domains fuel (assets.foldl (processAsset db domains) st1)

/-- The final traversal state of one `VizData` call. -/
def vizFinalState (domains : List String) (db : AssetDB) : VizState :=
  if domains.isEmpty then ⟨0, [], [], [], []⟩
  else
    match db.scopeRes with
    | none => ⟨0, [], [], [], []⟩
    | some frontier =>
      vizLoop db domains (frontier.length + db.assets.length + 1) ⟨0, [], [], [], frontier⟩

/-- viz `VizData`: the node and edge projection of the traversal. -/
def VizData (domains : List String) (db : AssetDB) : List Node × List Edge :=
  ((vizFinalState domains db).nodes, (vizFinalState domains db).edges)

/-- Truncation of a timestamp to its 24-hour boundary (Go
`Truncate(24 * time.Hour)`; the model epoch is day-aligned with the Go
zero time). -/
def dayTrunc (t : Nat) : Nat :=
  t - t % 86400

/-- The name-selection loop of `getNewNames`: collect, in order and without
repetition, the names of FQDN records created and last seen on/after the
cutoff (the string set of the Go code is modelled as the accumulated
list). -/
def newNamesLoop (cutoff : Nat) : List ARecord → List String → List String
  | [], res => res
  | a :: rest, res =>
    match a.asset with
    | some (.fqdn name) =>
      if name ∉ res ∧ cutoff ≤ a.createdAt ∧ cutoff ≤ a.lastSeen then
        newNamesLoop cutoff rest (res ++ [name])
      else
        newNamesLoop cutoff rest res
    | _ => newNamesLoop cutoff rest res

/-- The inline maximum-last-seen fold of `getNewNames` (`var latest
time.Time; ... if ok && a.LastSeen.After(latest)`). -/
def latestFold (assets : List ARecord) : Nat :=
  assets.foldl
    (fun latest a =>
      match a.asset with
      | some (.fqdn _) => if latest < a.lastSeen then a.lastSeen else latest
      | _ => latest)
    0

/-- oam_track `getNewNames`: names of scope-matching FQDN records created
and last seen on/after the cutoff; a zero cutoff is replaced by the maximum
last-seen timestamp truncated to its day boundary. -/
def getNewNames (domains : List String) (since : Nat) (db : AssetDB) : List String :=
  if domains.isEmpty then []
  else
    match db.scopeRes with
    | none => []
    | some assets =>
      let cutoff := if since = 0 then dayTrunc (latestFold assets) else since
      newNamesLoop cutoff assets []

/-- oam_subs / format `ASNInfo`: the summary entry of one ASN (the CIDR
count map is modelled as an association list). -/
structure ASNInfo where
  RIRName : String
  CIDRs : List (String × Nat)
deriving DecidableEq, Repr

/-- The ASN summary table (Go `map[int]*format.ASNInfo`), modelled as an
association list. -/
def AsnMap : Type := List (Int × ASNInfo)

instance : DecidableEq AsnMap := by
  unfold AsnMap
  infer_instance

/-- The loop collecting the containing netblocks of one IP record
(`handleNetblock` body); `none` models the abnormal stop of the Go code
when `FindById` yields no record (the ignored error leaves a nil pointer
that is dereferenced). -/
def handleNetblockLoop (db : AssetDB) : List ARecord → List Relation → Option (List ARecord)
  | acc, [] => some acc
  | acc, rel :: rest =>
    match findById db rel.fromId with
    | none => none
    | some nbA =>
      match nbA.asset with
      | some (.netblock _) => handleNetblockLoop db (acc ++ [nbA]) rest
      | _ => handleNetblockLoop db acc rest

/-- oam_subs `handleNetblock`: resolve the incoming "contains" relations of
an IP record to its containing netblock records, skipping records of an
unexpected kind. -/
def handleNetblock (ipAsset : ARecord) (db : AssetDB) : Option (List ARecord) :=
  handleNetblockLoop db [] (incomingRelations db ipAsset ["contains"])

/-- The RIR-resolution loop of `handleASN` over the outgoing "managed_by"
relations of one ASN record: each resolved RIR organization overwrites the
current name; when the ASN number is 0 the loop breaks after the first
resolved organization; a failed `FindById` aborts with an error (`none`);
records of an unexpected kind are skipped. -/
def resolveRIR (db : AssetDB) (number : Int) : String → List Relation → Option String
  | current, [] => some current
  | current, rel :: rest =>
    match findById db rel.toId with
    | none => none
    | some rirA =>
      match rirA.asset with
      | some (.rirOrganization name) =>
        if number = 0 then some name else resolveRIR db number name rest
      | _ => resolveRIR db number current rest

/-- One iteration of the `handleASN` loop over an incoming "announces"
relation: resolve the announcing ASN record (a failed `FindById` aborts,
modelling the nil dereference after the ignored error; an unexpected kind
is skipped), increment the CIDR count of the netblock under that ASN, and
resolve the RIR name.  A non-netblock `nb` aborts, modelling the
unguarded type assertion on the netblock record. -/
def handleASNRel (db : AssetDB) (nb : ARecord) (asnData : AsnMap) (rel : Relation) : Option AsnMap :=
  match findById db rel.fromId with
  | none => none
  | some asnA =>
    match asnA.asset with
    | some (.autonomousSystem number) =>
      match nb.asset with
      | some (.netblock cidr) =>
        let info := (lookupA asnData number).getD ⟨"", []⟩
        let cidrs := updateA info.CIDRs cidr ((lookupA info.CIDRs cidr).getD 0 + 1)
        match resolveRIR db number info.RIRName (outgoingRelations db asnA ["managed_by"]) with
        | none => none
        | some name => some (updateA asnData number ⟨name, cidrs⟩)
      | _ => none
    | _ => some asnData

/-- The loop of `handleASN` over the incoming "announces" relations. -/
def handleASNLoop (db : AssetDB) (nb : ARecord) : AsnMap → List Relation → Option AsnMap
  | asnData, [] => some asnData
  | asnData, rel :: rest =>
    match handleASNRel db nb asnData rel with
    | none => none
    | some asnData1 => handleASNLoop db nb asnData1 rest

/-- oam_subs `handleASN`: fold the announcing ASNs of one netblock record
into the ASN summary table. -/
def handleASN (netblockAsset : ARecord) (db : AssetDB) (asnData : AsnMap) : Option AsnMap :=
  handleASNLoop db netblockAsset asnData (incomingRelations db netblockAsset ["announces"])

/-- The RIR organization name a "managed_by" relation resolves to, if any. -/
def resolvedOrg (db : AssetDB) (rel : Relation) : Option String :=
  match findById db rel.toId with
  | some a =>
    match a.asset with
    | some (.rirOrganization name) => some name
    | _ => none
  | none => none

/-- The RIR organization names resolved by a list of relations, in order. -/
def resolvedOrgs (db : AssetDB) (rels : List Relation) : List String :=
  rels.filterMap (resolvedOrg db)

/-- The accumulated count of a CIDR under an ASN number in a summary table
(0 when absent). -/
def countOf (m : AsnMap) (number : Int) (c : String) : Nat :=
  match lookupA m number with
  | none => 0
  | some info => (lookupA info.CIDRs c).getD 0

/-- Does the record with the given store id resolve to the autonomous
system with the given number? -/
def isASNRec (db : AssetDB) (i : Nat) (number : Int) : Bool :=
  match findById db i with
  | some a => a.asset = some (.autonomousSystem number)
  | none => false

/-- Modelled from the spec: the maximum last-seen timestamp over the
scope-matching FQDN records ("scan all scope-matching FQDN records, take
the maximum last-seen timestamp"); used to compare `getNewNames` against
the description of the auto-derived cutoff in the spec. -/
def specMaxLastSeen (assets : List ARecord) : Nat :=
  ((assets.filter (fun a =>
      match a.asset with
      | some (.fqdn _) => true
      | _ => false)).map ARecord.lastSeen).foldr max 0

section Helpers

lemma lookupA_updateA_self {α β : Type} [DecidableEq α] (m : List (α × β)) (k : α) (v : β) :
    lookupA (updateA m k v) k = some v := by
  induction m with
  | nil => simp [updateA, lookupA]
  | cons p rest ih =>
    obtain ⟨k1, v1⟩ := p
    by_cases h : k1 = k
    · simp [updateA, lookupA, h]
    · simp [updateA, lookupA, h, ih]

lemma lookupA_updateA_ne {α β : Type} [DecidableEq α] (m : List (α × β)) (k k9 : α) (v : β)
    (h : k9 ≠ k) : lookupA (updateA m k v) k9 = lookupA m k9 := by
  have h9 : k ≠ k9 := fun hh => h hh.symm
  induction m with
  | nil => simp [updateA, lookupA, h9]
  | cons p rest ih =>
    obtain ⟨k1, v1⟩ := p
    by_cases h1 : k1 = k
    · subst h1
      simp [updateA, lookupA, h9]
    · by_cases h2 : k1 = k9
      · subst h2
        simp [updateA, lookupA, h1, lookupA]
      · simp [updateA, lookupA, h1, h2, ih]

lemma newNode_id (db : AssetDB) (idx : Nat) (a : Option ARecord) (n : Node)
    (h : newNode db idx a = some n) : n.ID = idx := by
  cases a with
  | none => simp [newNode] at h
  | some r =>
    cases hr : r.asset with
    | none => simp [newNode, hr] at h
    | some x =>
      simp only [newNode, hr] at h
      split at h
      · exact absurd h (by simp)
      · split at h
        · exact absurd h (by simp)
        · split at h
          · exact absurd h (by simp)
          · cases h
            rfl

end Helpers

/-- Claim C8: `newNode` returns "no node" exactly when the record or its
underlying asset is absent, its canonical content key is empty, its type is
Source, or it is a check asset (network endpoint or socket address) with no
outgoing "service" relation; all other records yield a node. -/
theorem newNode_none_iff (db : AssetDB) (idx : Nat) (a : Option ARecord) :
    newNode db idx a = none ↔
      a = none ∨
        ∃ r, a = some r ∧
          (r.asset = none ∨
            ∃ x, r.asset = some x ∧
              (x.key = "" ∨ x.kind = .Source ∨
                ((x.kind = .NetworkEndpoint ∨ x.kind = .SocketAddress) ∧
                  outgoingRelations db r ["service"] = []))) := by
  cases a with
  | none => simp [newNode]
  | some r =>
    cases hr : r.asset with
    | none => simp [newNode, hr]
    | some x =>
      cases x <;>
        simp [newNode, hr, OAMAsset.key, OAMAsset.kind, AssetKind.str] <;>
        (try split_ifs) <;>
        (try simp_all) <;>
        tauto

/-- Claim C9: with an empty scope list or a failed initial `FindByScope`
query, `VizData` returns empty node and edge lists and `getNewNames`
returns an empty name list; no error is surfaced. -/
theorem empty_scope_or_scope_error_empty_output
    (domains : List String) (since : Nat) (db : AssetDB)
    (h : domains = [] ∨ db.scopeRes = none) :
    VizData domains db = ([], []) ∧ getNewNames domains since db = [] := by
  rcases h with h | h
  · subst h
    simp [VizData, vizFinalState, getNewNames]
  · by_cases hd : domains.isEmpty
    · simp [VizData, vizFinalState, getNewNames, hd]
    · simp [VizData, vizFinalState, getNewNames, hd, h]

/-- An example store used by witnesses: one in-scope FQDN record. -/
def exRec : ARecord := ⟨1, some (.fqdn "example.com"), 10, 20⟩

/-- An example store whose initial scope query fails. -/
def exDbErr : AssetDB := ⟨[exRec], [], none⟩

/-- Witness for claim C9: the hypothesis holds for a failed scope query and
the outputs are empty. -/
theorem empty_scope_or_scope_error_empty_output_witness :
    VizData ["example.com"] exDbErr = ([], []) ∧ getNewNames ["example.com"] 5 exDbErr = [] :=
  empty_scope_or_scope_error_empty_output ["example.com"] 5 exDbErr (Or.inr rfl)

/-- Claim C2: in the incoming-relation step of the `VizData` traversal, a
newly discovered source record (fresh label) is enqueued on the next
frontier exactly when the relation label is not "ptr_record", while the
edge and node are recorded either way. -/
theorem processInRel_ptr_guard (db : AssetDB) (toID : Nat) (st : VizState) (rel : Relation)
    (fr : ARecord) (n2 : Node)
    (h1 : findById db rel.fromId = some fr)
    (h2 : newNode db st.idx (some fr) = some n2)
    (h3 : lookupA st.nodeToIdx n2.Label = none) :
    (processInRel db toID st rel).next =
      (if rel.rtype = "ptr_record" then st.next else st.next ++ [fr]) ∧
    (processInRel db toID st rel).edges =
      st.edges ++ [⟨st.idx, toID, rel.rtype, rel.rtype⟩] ∧
    (processInRel db toID st rel).nodes = st.nodes ++ [n2] := by
  by_cases hp : rel.rtype = "ptr_record" <;>
    simp [processInRel, h1, h2, h3, hp]

/-- A reverse-lookup FQDN record used by the claim C2 witness. -/
def exPtrRec : ARecord := ⟨2, some (.fqdn "1.0.0.10.in-addr.arpa"), 10, 20⟩

/-- A store with a "ptr_record" relation into the in-scope FQDN. -/
def exDbPtr : AssetDB := ⟨[exRec, exPtrRec], [⟨"ptr_record", 2, 1⟩], some [exRec]⟩

/-- The expected node of the reverse-lookup record at index 1. -/
def exPtrNode : Node :=
  ⟨1, "FQDN", "1.0.0.10.in-addr.arpa", "FQDN: 1.0.0.10.in-addr.arpa"⟩

/-- Witness for claim C2: on a concrete "ptr_record" relation, the source
record is not enqueued while its edge and node are recorded. -/
theorem processInRel_ptr_guard_witness :
    (processInRel exDbPtr 0 ⟨1, [("example.com", 0)], [], [], []⟩ ⟨"ptr_record", 2, 1⟩).next =
      (if "ptr_record" = "ptr_record" then ([] : List ARecord) else [] ++ [exPtrRec]) ∧
    (processInRel exDbPtr 0 ⟨1, [("example.com", 0)], [], [], []⟩ ⟨"ptr_record", 2, 1⟩).edges =
      [] ++ [⟨1, 0, "ptr_record", "ptr_record"⟩] ∧
    (processInRel exDbPtr 0 ⟨1, [("example.com", 0)], [], [], []⟩ ⟨"ptr_record", 2, 1⟩).nodes =
      [] ++ [exPtrNode] :=
  processInRel_ptr_guard exDbPtr 0 ⟨1, [("example.com", 0)], [], [], []⟩ ⟨"ptr_record", 2, 1⟩
    exPtrRec exPtrNode (by decide) (by decide) (by decide)

/-- Claim C3: an FQDN record always has its outgoing relations followed
with no label restriction, and has its incoming relations followed (again
unrestricted) exactly when `domainNameInScope` holds of its label — i.e.
the label equals a root domain name or is a subdomain of one; otherwise the
incoming expansion is skipped entirely. -/
theorem processAsset_fqdn_scope (db : AssetDB) (domains : List String) (st : VizState)
    (a : ARecord) (name : String) (n : Node)
    (ha : a.asset = some (.fqdn name))
    (hn : newNode db st.idx (some a) = some n) :
    assetPolicy domains n.Label .FQDN =
      ⟨true, [], domainNameInScope n.Label domains, []⟩ ∧
    (domainNameInScope n.Label domains = true ↔
      ∃ d ∈ domains, toLowerStr (trimStr n.Label) = toLowerStr d ∨
        endsWithStr (toLowerStr (trimStr n.Label)) ("." ++ toLowerStr d)) ∧
    (∀ (id : Nat) (st1 : VizState),
      expandRels db domains a n.Label id st1 =
        (let st2 := processOutRels db id st1 (outgoingRelations db a [])
         if domainNameInScope n.Label domains then
           processInRels db id st2 (incomingRelations db a [])
         else st2)) := by
  have hk : a.kind = .FQDN := by simp [ARecord.kind, ha, OAMAsset.kind]
  refine ⟨rfl, ?_, ?_⟩
  · simp [domainNameInScope, List.any_eq_true]
  · intro id st1
    simp only [expandRels, hk, assetPolicy]
    by_cases hs : domainNameInScope n.Label domains <;> simp [hs]

/-- The expected node of the in-scope FQDN record at index 0. -/
def exNode : Node := ⟨0, "FQDN", "example.com", "FQDN: example.com"⟩

/-- Witness for claim C3: the concrete in-scope FQDN record is expanded in
both directions; its single incoming "ptr_record" relation yields a node
and an edge. -/
theorem processAsset_fqdn_scope_witness :
    assetPolicy ["example.com"] "example.com" .FQDN =
      ⟨true, [], domainNameInScope "example.com" ["example.com"], []⟩ ∧
    (domainNameInScope "example.com" ["example.com"] = true ↔
      ∃ d ∈ ["example.com"], toLowerStr (trimStr "example.com") = toLowerStr d ∨
        endsWithStr (toLowerStr (trimStr "example.com")) ("." ++ toLowerStr d)) ∧
    expandRels exDbPtr ["example.com"] exRec "example.com" 0
        ⟨1, [("example.com", 0)], [exNode], [], []⟩ =
      (let st2 := processOutRels exDbPtr 0 ⟨1, [("example.com", 0)], [exNode], [], []⟩
        (outgoingRelations exDbPtr exRec [])
       if domainNameInScope "example.com" ["example.com"] then
         processInRels exDbPtr 0 st2 (incomingRelations exDbPtr exRec [])
       else st2) ∧
    expandRels exDbPtr ["example.com"] exRec "example.com" 0
        ⟨1, [("example.com", 0)], [exNode], [], []⟩ =
      ⟨2, [("1.0.0.10.in-addr.arpa", 1), ("example.com", 0)], [exNode, exPtrNode],
       [⟨1, 0, "ptr_record", "ptr_record"⟩], []⟩ := by
  have h := processAsset_fqdn_scope exDbPtr ["example.com"]
    ⟨1, [("example.com", 0)], [exNode], [], []⟩ exRec
    "example.com" ⟨1, "FQDN", "example.com", "FQDN: example.com"⟩ (by decide) (by decide)
  exact ⟨h.1, h.2.1, h.2.2 0 ⟨1, [("example.com", 0)], [exNode], [], []⟩, by decide⟩

lemma resolveRIR_eq (db : AssetDB) (number : Int) (rels : List Relation) (current : String)
    (h : ∀ rel ∈ rels, (findById db rel.toId).isSome) :
    resolveRIR db number current rels =
      some (if number = 0 then (resolvedOrgs db rels).headD current
            else (resolvedOrgs db rels).getLastD current) := by
  induction rels generalizing current with
  | nil => simp [resolveRIR, resolvedOrgs]
  | cons rel rest ih =>
    have hrel : (findById db rel.toId).isSome := h rel (by simp)
    have hrest : ∀ r ∈ rest, (findById db r.toId).isSome := fun r hr => h r (by simp [hr])
    obtain ⟨rirA, hr⟩ := Option.isSome_iff_exists.mp hrel
    cases hx : rirA.asset with
    | none =>
      simp [resolveRIR, hr, hx, resolvedOrgs, List.filterMap_cons, resolvedOrg, ih _ hrest]
    | some x =>
      cases x
      case rirOrganization name =>
        have hstep : resolveRIR db number current (rel :: rest) =
            if number = 0 then some name else resolveRIR db number name rest := by
          simp [resolveRIR, hr, hx]
        have horgs : resolvedOrgs db (rel :: rest) = name :: resolvedOrgs db rest := by
          simp [resolvedOrgs, List.filterMap_cons, resolvedOrg, hr, hx]
        rw [hstep, horgs]
        by_cases h0 : number = 0
        · simp [h0]
        · rw [if_neg h0, if_neg h0, ih name hrest, if_neg h0, List.getLastD_cons]
      all_goals
        simp [resolveRIR, hr, hx, resolvedOrgs, List.filterMap_cons, resolvedOrg, ih _ hrest]

/-- Claim C5: one `handleASN` step over an "announces" relation resolving
to the autonomous system `number` sets the RIR name of the summary entry to the
last resolved "managed_by" organization — each resolution overwrites the
previous name — except that for ASN number 0 the first resolved
organization is kept. -/
theorem handleASN_rir_last_wins (db : AssetDB) (nb : ARecord) (asnData : AsnMap)
    (rel : Relation) (asnA : ARecord) (number : Int) (cidr : String)
    (h1 : findById db rel.fromId = some asnA)
    (h2 : asnA.asset = some (.autonomousSystem number))
    (h3 : nb.asset = some (.netblock cidr))
    (h4 : ∀ r ∈ outgoingRelations db asnA ["managed_by"], (findById db r.toId).isSome) :
    ∃ res, handleASNRel db nb asnData rel = some res ∧
      (lookupA res number).map ASNInfo.RIRName =
        some (if number = 0
          then (resolvedOrgs db (outgoingRelations db asnA ["managed_by"])).headD
                 ((lookupA asnData number).getD ⟨"", []⟩).RIRName
          else (resolvedOrgs db (outgoingRelations db asnA ["managed_by"])).getLastD
                 ((lookupA asnData number).getD ⟨"", []⟩).RIRName) := by
  have hres := resolveRIR_eq db number (outgoingRelations db asnA ["managed_by"])
    ((lookupA asnData number).getD ⟨"", []⟩).RIRName h4
  simp only [handleASNRel, h1, h2, h3, hres]
  exact ⟨_, rfl, by rw [lookupA_updateA_self]; rfl⟩

/-- Concrete records for the ASN-aggregation witnesses. -/
def exIp : ARecord := ⟨11, some (.ipAddress "10.0.0.5"), 0, 0⟩

/-- A netblock record containing the example IP. -/
def exNb8 : ARecord := ⟨12, some (.netblock "10.0.0.0/8"), 0, 0⟩

/-- A second, overlapping netblock record containing the example IP. -/
def exNb16 : ARecord := ⟨13, some (.netblock "10.0.0.0/16"), 0, 0⟩

/-- The autonomous system announcing the /8 netblock. -/
def exAs100 : ARecord := ⟨14, some (.autonomousSystem 100), 0, 0⟩

/-- The autonomous system announcing the /16 netblock. -/
def exAs200 : ARecord := ⟨15, some (.autonomousSystem 200), 0, 0⟩

/-- Two RIR organization records managed-by relations resolve to. -/
def exRir1 : ARecord := ⟨16, some (.rirOrganization "ARIN"), 0, 0⟩

/-- The second RIR organization record. -/
def exRir2 : ARecord := ⟨17, some (.rirOrganization "RIPE"), 0, 0⟩

/-- The store of the ASN-aggregation witnesses: one IP inside two
overlapping netblocks announced by two different autonomous systems, the
first of which is managed by two organizations in sequence. -/
def exDbAsn : AssetDB :=
  ⟨[exIp, exNb8, exNb16, exAs100, exAs200, exRir1, exRir2],
   [⟨"contains", 12, 11⟩, ⟨"contains", 13, 11⟩,
    ⟨"announces", 14, 12⟩, ⟨"announces", 15, 13⟩,
    ⟨"managed_by", 14, 16⟩, ⟨"managed_by", 14, 17⟩, ⟨"managed_by", 15, 16⟩],
   none⟩

/-- Witness for claim C5: for ASN 100 (nonzero) with two resolved
organizations "ARIN" then "RIPE", the last one wins. -/
theorem handleASN_rir_last_wins_witness :
    (∃ res, handleASNRel exDbAsn exNb8 [] ⟨"announces", 14, 12⟩ = some res ∧
      (lookupA res 100).map ASNInfo.RIRName =
        some (if (100 : Int) = 0
          then (resolvedOrgs exDbAsn (outgoingRelations exDbAsn exAs100 ["managed_by"])).headD
                 ((lookupA ([] : AsnMap) 100).getD ⟨"", []⟩).RIRName
          else (resolvedOrgs exDbAsn (outgoingRelations exDbAsn exAs100 ["managed_by"])).getLastD
                 ((lookupA ([] : AsnMap) 100).getD ⟨"", []⟩).RIRName)) ∧
    (if (100 : Int) = 0
      then (resolvedOrgs exDbAsn (outgoingRelations exDbAsn exAs100 ["managed_by"])).headD
             ((lookupA ([] : AsnMap) 100).getD ⟨"", []⟩).RIRName
      else (resolvedOrgs exDbAsn (outgoingRelations exDbAsn exAs100 ["managed_by"])).getLastD
             ((lookupA ([] : AsnMap) 100).getD ⟨"", []⟩).RIRName) = "RIPE" :=
  ⟨handleASN_rir_last_wins exDbAsn exNb8 [] ⟨"announces", 14, 12⟩ exAs100 100 "10.0.0.0/8"
     (by decide) (by decide) (by decide) (by decide),
   by decide⟩

lemma countOf_eq (m : AsnMap) (number : Int) (c : String) :
    countOf m number c = (lookupA ((lookupA m number).getD ⟨"", []⟩).CIDRs c).getD 0 := by
  cases h : lookupA m number <;> simp [countOf, h, lookupA]

lemma countOf_handleASNRel (db : AssetDB) (nb : ARecord) (m : AsnMap) (rel : Relation)
    (m1 : AsnMap) (cidr : String)
    (h3 : nb.asset = some (.netblock cidr))
    (h : handleASNRel db nb m rel = some m1) (number : Int) (c : String) :
    countOf m1 number c =
      countOf m number c + (if isASNRec db rel.fromId number ∧ c = cidr then 1 else 0) := by
  cases hf : findById db rel.fromId with
  | none => simp [handleASNRel, hf] at h
  | some asnA =>
    cases hx : asnA.asset with
    | none =>
      simp only [handleASNRel, hf, hx, Option.some.injEq] at h
      subst h
      simp [isASNRec, hf, hx]
    | some x =>
      cases x
      case autonomousSystem num9 =>
        simp only [handleASNRel, hf, hx, h3] at h
        cases hrir : resolveRIR db num9 ((lookupA m num9).getD ⟨"", []⟩).RIRName
            (outgoingRelations db asnA ["managed_by"]) with
        | none => rw [hrir] at h; exact absurd h (by simp)
        | some nm =>
          rw [hrir] at h
          simp only [Option.some.injEq] at h
          subst h
          have hA : isASNRec db rel.fromId number = decide (num9 = number) := by
            simp [isASNRec, hf, hx]
          by_cases hn : number = num9
          · subst hn
            rw [countOf_eq, lookupA_updateA_self]
            by_cases hc : c = cidr
            · subst hc
              simp [hA, lookupA_updateA_self, countOf_eq]
            · have hc9 : ¬ (isASNRec db rel.fromId number ∧ c = cidr) := by
                intro hh
                exact hc hh.2
              simp only [hc9, if_false, Option.getD_some]
              rw [lookupA_updateA_ne _ _ _ _ hc, ← countOf_eq]
              simp
          · have hne : number ≠ num9 := hn
            rw [countOf_eq, lookupA_updateA_ne _ _ _ _ hne, ← countOf_eq]
            have : isASNRec db rel.fromId number = false := by
              simp [hA]
              intro hh
              exact absurd hh.symm hn
            simp [this]
      all_goals
        simp only [handleASNRel, hf, hx, Option.some.injEq] at h
      all_goals
        subst h
      all_goals
        simp [isASNRec, hf, hx]

lemma countOf_handleASNLoop (db : AssetDB) (nb : ARecord) (cidr : String)
    (h3 : nb.asset = some (.netblock cidr)) :
    ∀ (rels : List Relation) (m res : AsnMap), handleASNLoop db nb m rels = some res →
      ∀ (number : Int) (c : String),
        countOf res number c =
          countOf m number c +
            (if c = cidr then rels.countP (fun r => isASNRec db r.fromId number) else 0) := by
  intro rels
  induction rels with
  | nil =>
    intro m res h number c
    simp only [handleASNLoop, Option.some.injEq] at h
    subst h
    simp
  | cons rel rest ih =>
    intro m res h number c
    cases hr : handleASNRel db nb m rel with
    | none => simp [handleASNLoop, hr] at h
    | some m1 =>
      simp only [handleASNLoop, hr] at h
      have hstep := countOf_handleASNRel db nb m rel m1 cidr h3 hr number c
      have hrest := ih m1 res h number c
      rw [hrest, hstep, List.countP_cons]
      by_cases hc : c = cidr <;> by_cases ha : isASNRec db rel.fromId number <;>
        simp [hc, ha] <;> omega

/-- Claim C4: `handleASN` on a netblock record increments the count stored
for the CIDR of the netblock under each announcing ASN by exactly one per
"announces" relation resolving to that ASN — one increment per visited
(IP, netblock, ASN) triple — and leaves every other CIDR count unchanged. -/
theorem handleASN_cidr_counts (db : AssetDB) (nb : ARecord) (cidr : String) (m res : AsnMap)
    (h3 : nb.asset = some (.netblock cidr))
    (h : handleASN nb db m = some res) (number : Int) (c : String) :
    countOf res number c =
      countOf m number c +
        (if c = cidr
         then (incomingRelations db nb ["announces"]).countP (fun r => isASNRec db r.fromId number)
         else 0) :=
  countOf_handleASNLoop db nb cidr h3 (incomingRelations db nb ["announces"]) m res h number c

/-- The summary table after aggregating the first witness netblock. -/
def exAsnResA : AsnMap := [(100, ⟨"RIPE", [("10.0.0.0/8", 1)]⟩)]

/-- The summary table after aggregating both witness netblocks. -/
def exAsnResB : AsnMap :=
  [(100, ⟨"RIPE", [("10.0.0.0/8", 1)]⟩), (200, ⟨"ARIN", [("10.0.0.0/16", 1)]⟩)]

/-- Witness for claim C4: one IP in two overlapping netblocks announced by
two different ASNs — `handleNetblock` finds both netblocks, and chaining
`handleASN` yields two summary entries whose CIDR counts are each exactly
one. -/
theorem handleASN_cidr_counts_witness :
    handleNetblock exIp exDbAsn = some [exNb8, exNb16] ∧
    (countOf exAsnResA 100 "10.0.0.0/8" =
      countOf ([] : AsnMap) 100 "10.0.0.0/8" +
        (if "10.0.0.0/8" = "10.0.0.0/8"
         then (incomingRelations exDbAsn exNb8 ["announces"]).countP
                (fun r => isASNRec exDbAsn r.fromId 100)
         else 0)) ∧
    (countOf exAsnResB 200 "10.0.0.0/16" =
      countOf exAsnResA 200 "10.0.0.0/16" +
        (if "10.0.0.0/16" = "10.0.0.0/16"
         then (incomingRelations exDbAsn exNb16 ["announces"]).countP
                (fun r => isASNRec exDbAsn r.fromId 200)
         else 0)) ∧
    countOf exAsnResB 100 "10.0.0.0/8" = 1 ∧
    countOf exAsnResB 200 "10.0.0.0/16" = 1 :=
  ⟨by decide,
   handleASN_cidr_counts exDbAsn exNb8 "10.0.0.0/8" [] exAsnResA (by decide) (by decide)
     100 "10.0.0.0/8",
   handleASN_cidr_counts exDbAsn exNb16 "10.0.0.0/16" exAsnResA exAsnResB (by decide) (by decide)
     200 "10.0.0.0/16",
   by decide, by decide⟩

lemma mem_newNamesLoop (cutoff : Nat) (l : List ARecord) (res : List String) (x : String) :
    x ∈ newNamesLoop cutoff l res ↔
      x ∈ res ∨ ∃ a ∈ l, a.asset = some (.fqdn x) ∧
        cutoff ≤ a.createdAt ∧ cutoff ≤ a.lastSeen := by
  induction l generalizing res with
  | nil => simp [newNamesLoop]
  | cons a rest ih =>
    cases ha : a.asset with
    | none =>
      simp [newNamesLoop, ha, ih]
    | some y =>
      cases y
      case fqdn name =>
        have hunfold : newNamesLoop cutoff (a :: rest) res =
            if name ∉ res ∧ cutoff ≤ a.createdAt ∧ cutoff ≤ a.lastSeen
            then newNamesLoop cutoff rest (res ++ [name])
            else newNamesLoop cutoff rest res := by
          simp [newNamesLoop, ha]
        by_cases hcond : name ∉ res ∧ cutoff ≤ a.createdAt ∧ cutoff ≤ a.lastSeen
        · rw [hunfold, if_pos hcond, ih]
          constructor
          · rintro (hx | ⟨b, hb, hrest⟩)
            · rcases List.mem_append.mp hx with hx | hx
              · exact Or.inl hx
              · have hxn : x = name := by simpa using hx
                subst hxn
                exact Or.inr ⟨a, List.mem_cons_self a rest, ha, hcond.2⟩
            · exact Or.inr ⟨b, List.mem_cons_of_mem a hb, hrest⟩
          · rintro (hx | ⟨b, hb, hrest⟩)
            · exact Or.inl (List.mem_append.mpr (Or.inl hx))
            · rcases List.mem_cons.mp hb with hb | hb
              · subst hb
                rw [ha] at hrest
                have hnx : name = x := by simpa using hrest.1
                subst hnx
                exact Or.inl (List.mem_append.mpr (Or.inr (by simp)))
              · exact Or.inr ⟨b, hb, hrest⟩
        · rw [hunfold, if_neg hcond, ih]
          constructor
          · rintro (hx | ⟨b, hb, hrest⟩)
            · exact Or.inl hx
            · exact Or.inr ⟨b, List.mem_cons_of_mem a hb, hrest⟩
          · rintro (hx | ⟨b, hb, hrest⟩)
            · exact Or.inl hx
            · rcases List.mem_cons.mp hb with hb | hb
              · subst hb
                rw [ha] at hrest
                obtain ⟨h1, h2, h3⟩ := hrest
                have hnx : name = x := by simpa using h1
                subst hnx
                have hin : name ∈ res := by
                  by_contra hni
                  exact hcond ⟨hni, h2, h3⟩
                exact Or.inl hin
              · exact Or.inr ⟨b, hb, hrest⟩
      all_goals
        simp [newNamesLoop, ha, ih]

lemma nodup_newNamesLoop (cutoff : Nat) (l : List ARecord) :
    ∀ res : List String, res.Nodup → (newNamesLoop cutoff l res).Nodup := by
  induction l with
  | nil =>
    intro res h
    simpa [newNamesLoop] using h
  | cons a rest ih =>
    intro res h
    cases ha : a.asset with
    | none =>
      have := ih res h
      simpa [newNamesLoop, ha] using this
    | some y =>
      cases y
      case fqdn name =>
        have hunfold : newNamesLoop cutoff (a :: rest) res =
            if name ∉ res ∧ cutoff ≤ a.createdAt ∧ cutoff ≤ a.lastSeen
            then newNamesLoop cutoff rest (res ++ [name])
            else newNamesLoop cutoff rest res := by
          simp [newNamesLoop, ha]
        by_cases hcond : name ∉ res ∧ cutoff ≤ a.createdAt ∧ cutoff ≤ a.lastSeen
        · rw [hunfold, if_pos hcond]
          refine ih _ ?_
          simp [List.nodup_append, h, hcond.1]
        · rw [hunfold, if_neg hcond]
          exact ih res h
      all_goals
        have := ih res h
      all_goals
        simpa [newNamesLoop, ha] using this

lemma latestFold_general (assets : List ARecord) : ∀ b : Nat,
    assets.foldl
      (fun latest a =>
        match a.asset with
        | some (.fqdn _) => if latest < a.lastSeen then a.lastSeen else latest
        | _ => latest) b
    = max b (((assets.filter (fun a =>
        match a.asset with
        | some (.fqdn _) => true
        | _ => false)).map ARecord.lastSeen).foldr max 0) := by
  induction assets with
  | nil =>
    intro b
    simp
  | cons a rest ih =>
    intro b
    cases ha : a.asset with
    | none =>
      simp only [List.foldl_cons, List.filter_cons, ha]
      simpa using ih b
    | some y =>
      cases y
      case fqdn nm =>
        simp only [List.foldl_cons, List.filter_cons, ha]
        have hstep : (if b < a.lastSeen then a.lastSeen else b) = max b a.lastSeen := by
          rcases Nat.lt_or_ge b a.lastSeen with hlt | hge
          · simp [hlt, Nat.max_eq_right (Nat.le_of_lt hlt)]
          · simp [Nat.not_lt.mpr hge, Nat.max_eq_left hge]
        simp only [hstep]
        rw [ih (max b a.lastSeen)]
        simp [Nat.max_assoc]
      all_goals
        simp only [List.foldl_cons, List.filter_cons, ha]
      all_goals
        simpa using ih b

lemma latestFold_eq (assets : List ARecord) : latestFold assets = specMaxLastSeen assets := by
  have := latestFold_general assets 0
  simpa [latestFold, specMaxLastSeen] using this

/-- Claim C6: with a zero (absent) cutoff, `getNewNames` selects names
using the cutoff obtained from the maximum last-seen timestamp over the
scope-matching FQDN records, truncated to the start of its 24-hour day. -/
theorem getNewNames_auto_cutoff (domains : List String) (db : AssetDB) (assets : List ARecord)
    (h1 : domains ≠ []) (h2 : db.scopeRes = some assets) :
    getNewNames domains 0 db =
      newNamesLoop (dayTrunc (specMaxLastSeen assets)) assets [] := by
  have hd : domains.isEmpty = false := by
    cases domains with
    | nil => exact absurd rfl h1
    | cons x xs => rfl
  simp [getNewNames, hd, h2, latestFold_eq]

/-- A record last seen at 2024-01-05T03:00:00Z (also its creation time). -/
def exTrackA : ARecord := ⟨21, some (.fqdn "a.example.com"), 1704423600, 1704423600⟩

/-- A record created at 2024-01-05T00:00:00Z and last seen at
2024-01-05T18:00:00Z. -/
def exTrackB : ARecord := ⟨22, some (.fqdn "b.example.com"), 1704412800, 1704477600⟩

/-- The scope-matching records of the delta-selection witnesses. -/
def exTrackAssets : List ARecord := [exTrackA, exTrackB]

/-- The store of the delta-selection witnesses. -/
def exDbTrack : AssetDB := ⟨exTrackAssets, [], some exTrackAssets⟩

/-- Witness for claim C6: with names last seen at 2024-01-05T03:00 and
2024-01-05T18:00, the derived cutoff is 2024-01-05T00:00 and both names
qualify. -/
theorem getNewNames_auto_cutoff_witness :
    getNewNames ["example.com"] 0 exDbTrack =
      newNamesLoop (dayTrunc (specMaxLastSeen exTrackAssets)) exTrackAssets [] ∧
    dayTrunc (specMaxLastSeen exTrackAssets) = 1704412800 ∧
    getNewNames ["example.com"] 0 exDbTrack = ["a.example.com", "b.example.com"] :=
  ⟨getNewNames_auto_cutoff ["example.com"] exDbTrack exTrackAssets (by decide) rfl,
   by decide, by decide⟩

/-- Claim C7: with an explicit (nonzero) cutoff, `getNewNames` returns a
name exactly when some scope-matching FQDN record with that name was
created on/after the cutoff and last seen on/after the cutoff, and the
returned list has no duplicates. -/
theorem getNewNames_explicit_cutoff (domains : List String) (db : AssetDB)
    (assets : List ARecord) (since : Nat)
    (h1 : domains ≠ []) (h2 : db.scopeRes = some assets) (h3 : since ≠ 0) :
    (∀ name, name ∈ getNewNames domains since db ↔
      ∃ a ∈ assets, a.asset = some (.fqdn name) ∧
        since ≤ a.createdAt ∧ since ≤ a.lastSeen) ∧
    (getNewNames domains since db).Nodup := by
  have hd : domains.isEmpty = false := by
    cases domains with
    | nil => exact absurd rfl h1
    | cons x xs => rfl
  have hg : getNewNames domains since db = newNamesLoop since assets [] := by
    simp [getNewNames, hd, h2, h3]
  rw [hg]
  refine ⟨fun name => ?_, nodup_newNamesLoop since assets [] List.nodup_nil⟩
  rw [mem_newNamesLoop]
  simp

/-- Witness for claim C7: with cutoff 2024-01-05T03:00, the name created at
the cutoff is selected; the name created before the cutoff (though seen
after it) is excluded; the output has no duplicates. -/
theorem getNewNames_explicit_cutoff_witness :
    ("a.example.com" ∈ getNewNames ["example.com"] 1704423600 exDbTrack ↔
      ∃ a ∈ exTrackAssets, a.asset = some (.fqdn "a.example.com") ∧
        1704423600 ≤ a.createdAt ∧ 1704423600 ≤ a.lastSeen) ∧
    (getNewNames ["example.com"] 1704423600 exDbTrack).Nodup ∧
    getNewNames ["example.com"] 1704423600 exDbTrack = ["a.example.com"] :=
  ⟨(getNewNames_explicit_cutoff ["example.com"] exDbTrack exTrackAssets 1704423600
      (by decide) rfl (by decide)).1 "a.example.com",
   (getNewNames_explicit_cutoff ["example.com"] exDbTrack exTrackAssets 1704423600
      (by decide) rfl (by decide)).2,
   by decide⟩

/-- The traversal invariant of `VizData`: nodes fill positions `0..idx-1`,
node `i` carries ID `i`, the label table maps exactly the labels of the
accumulated nodes to their positions, and all recorded edge endpoints are
assigned indices. -/
def Inv (st : VizState) : Prop :=
  st.nodes.length = st.idx ∧
  (∀ (i : Nat) (h : i < st.nodes.length), (st.nodes[i]).ID = i) ∧
  (∀ (i : Nat) (h : i < st.nodes.length),
    lookupA st.nodeToIdx ((st.nodes[i]).Label) = some i) ∧
  (∀ (l : String) (j : Nat), lookupA st.nodeToIdx l = some j →
    ∃ h : j < st.nodes.length, (st.nodes[j]).Label = l) ∧
  (∀ e ∈ st.edges, e.From < st.idx ∧ e.To < st.idx)

lemma inv_insert (st : VizState) (n : Node) (edges1 : List Edge) (next1 : List ARecord)
    (hInv : Inv st) (hid : n.ID = st.idx)
    (hfresh : lookupA st.nodeToIdx n.Label = none)
    (hedges : ∀ e ∈ edges1, e.From < st.idx + 1 ∧ e.To < st.idx + 1) :
    Inv ⟨st.idx + 1, (n.Label, st.idx) :: st.nodeToIdx, st.nodes ++ [n], edges1, next1⟩ := by
  obtain ⟨hlen, hids, hlook, hsound, hedg⟩ := hInv
  refine ⟨?_, ?_, ?_, ?_, fun e he => hedges e he⟩
  · show (st.nodes ++ [n]).length = st.idx + 1
    simp [hlen]
  · intro i h
    have h2 : i < (st.nodes ++ [n]).length := h
    simp only [List.length_append, List.length_singleton] at h2
    show (st.nodes ++ [n])[i].ID = i
    rcases Nat.lt_or_ge i st.nodes.length with hi | hi
    · rw [List.getElem_append_left hi]
      exact hids i hi
    · have hieq : i = st.nodes.length := by omega
      rw [List.getElem_concat_length st.nodes n i hieq]
      omega
  · intro i h
    have h2 : i < (st.nodes ++ [n]).length := h
    simp only [List.length_append, List.length_singleton] at h2
    show lookupA ((n.Label, st.idx) :: st.nodeToIdx) ((st.nodes ++ [n])[i].Label) = some i
    rcases Nat.lt_or_ge i st.nodes.length with hi | hi
    · rw [List.getElem_append_left hi]
      have hne : n.Label ≠ (st.nodes[i]).Label := by
        intro heq
        have hl := hlook i hi
        rw [← heq, hfresh] at hl
        exact Option.noConfusion hl
      simp only [lookupA, if_neg hne]
      exact hlook i hi
    · have hieq : i = st.nodes.length := by omega
      rw [List.getElem_concat_length st.nodes n i hieq]
      have hval : lookupA ((n.Label, st.idx) :: st.nodeToIdx) n.Label = some st.idx := by
        simp [lookupA]
      rw [hval]
      simp only [Option.some.injEq]
      omega
  · intro l j hl
    have hl2 : lookupA ((n.Label, st.idx) :: st.nodeToIdx) l = some j := hl
    by_cases heq : n.Label = l
    · subst heq
      have hval : lookupA ((n.Label, st.idx) :: st.nodeToIdx) n.Label = some st.idx := by
        simp [lookupA]
      rw [hval] at hl2
      obtain rfl : st.idx = j := Option.some.inj hl2
      have hlt : st.idx < (st.nodes ++ [n]).length := by
        simp
        omega
      refine ⟨hlt, ?_⟩
      show (st.nodes ++ [n])[st.idx].Label = n.Label
      rw [List.getElem_concat_length st.nodes n st.idx hlen.symm]
    · simp only [lookupA, if_neg heq] at hl2
      obtain ⟨hj, hlbl⟩ := hsound l j hl2
      have hlt : j < (st.nodes ++ [n]).length := by
        simp
        omega
      refine ⟨hlt, ?_⟩
      show (st.nodes ++ [n])[j].Label = l
      rw [List.getElem_append_left hj]
      exact hlbl

lemma edges_mono (st : VizState) (e1 : Edge) (hInv : Inv st)
    (hFrom : e1.From < st.idx + 1) (hTo : e1.To < st.idx + 1) :
    ∀ e ∈ st.edges ++ [e1], e.From < st.idx + 1 ∧ e.To < st.idx + 1 := by
  intro e he
  rcases List.mem_append.mp he with he | he
  · have := hInv.2.2.2.2 e he
    omega
  · simp only [List.mem_singleton] at he
    subst he
    exact ⟨hFrom, hTo⟩

lemma processOutRel_inv (db : AssetDB) (fromID : Nat) (st : VizState) (rel : Relation)
    (hInv : Inv st) (hf : fromID < st.idx) :
    Inv (processOutRel db fromID st rel) ∧ st.idx ≤ (processOutRel db fromID st rel).idx := by
  unfold processOutRel
  split
  · exact ⟨hInv, le_refl _⟩
  · rename_i tgt hfb
    split
    · exact ⟨hInv, le_refl _⟩
    · rename_i n2 hn
      split
      · rename_i hl
        refine ⟨?_, by simp⟩
        have hid := newNode_id db st.idx (some tgt) n2 hn
        exact inv_insert st n2 _ _ hInv hid hl
          (edges_mono st ⟨fromID, st.idx, rel.rtype, rel.rtype⟩ hInv
            (by show fromID < st.idx + 1; omega) (by show st.idx < st.idx + 1; omega))
      · rename_i nid hl
        obtain ⟨hj, _⟩ := hInv.2.2.2.1 _ _ hl
        have hnid : nid < st.idx := by
          have := hInv.1
          omega
        refine ⟨⟨hInv.1, hInv.2.1, hInv.2.2.1, hInv.2.2.2.1, ?_⟩, by simp⟩
        intro e he
        have he2 : e ∈ st.edges ++ [⟨fromID, nid, rel.rtype, rel.rtype⟩] := he
        rcases List.mem_append.mp he2 with he3 | he3
        · have := hInv.2.2.2.2 e he3
          exact ⟨this.1, this.2⟩
        · simp only [List.mem_singleton] at he3
          subst he3
          exact ⟨hf, hnid⟩

lemma processOutRels_inv (db : AssetDB) (fromID : Nat) :
    ∀ (rels : List Relation) (st : VizState), Inv st → fromID < st.idx →
      Inv (processOutRels db fromID st rels) ∧
        st.idx ≤ (processOutRels db fromID st rels).idx := by
  intro rels
  induction rels with
  | nil =>
    intro st h hf
    exact ⟨h, le_refl _⟩
  | cons rel rest ih =>
    intro st h hf
    have hstep := processOutRel_inv db fromID st rel h hf
    have hf1 : fromID < (processOutRel db fromID st rel).idx := lt_of_lt_of_le hf hstep.2
    have hrest := ih (processOutRel db fromID st rel) hstep.1 hf1
    exact ⟨hrest.1, le_trans hstep.2 hrest.2⟩

lemma processInRel_inv (db : AssetDB) (toID : Nat) (st : VizState) (rel : Relation)
    (hInv : Inv st) (hf : toID < st.idx) :
    Inv (processInRel db toID st rel) ∧ st.idx ≤ (processInRel db toID st rel).idx := by
  unfold processInRel
  split
  · exact ⟨hInv, le_refl _⟩
  · rename_i fr hfb
    split
    · exact ⟨hInv, le_refl _⟩
    · rename_i n2 hn
      split
      · rename_i hl
        refine ⟨?_, by simp⟩
        have hid := newNode_id db st.idx (some fr) n2 hn
        exact inv_insert st n2 _ _ hInv hid hl
          (edges_mono st ⟨st.idx, toID, rel.rtype, rel.rtype⟩ hInv
            (by show st.idx < st.idx + 1; omega) (by show toID < st.idx + 1; omega))
      · rename_i nid hl
        obtain ⟨hj, _⟩ := hInv.2.2.2.1 _ _ hl
        have hnid : nid < st.idx := by
          have := hInv.1
          omega
        refine ⟨⟨hInv.1, hInv.2.1, hInv.2.2.1, hInv.2.2.2.1, ?_⟩, by simp⟩
        intro e he
        have he2 : e ∈ st.edges ++ [⟨nid, toID, rel.rtype, rel.rtype⟩] := he
        rcases List.mem_append.mp he2 with he3 | he3
        · have := hInv.2.2.2.2 e he3
          exact ⟨this.1, this.2⟩
        · simp only [List.mem_singleton] at he3
          subst he3
          exact ⟨hnid, hf⟩

lemma processInRels_inv (db : AssetDB) (toID : Nat) :
    ∀ (rels : List Relation) (st : VizState), Inv st → toID < st.idx →
      Inv (processInRels db toID st rels) ∧
        st.idx ≤ (processInRels db toID st rels).idx := by
  intro rels
  induction rels with
  | nil =>
    intro st h hf
    exact ⟨h, le_refl _⟩
  | cons rel rest ih =>
    intro st h hf
    have hstep := processInRel_inv db toID st rel h hf
    have hf1 : toID < (processInRel db toID st rel).idx := lt_of_lt_of_le hf hstep.2
    have hrest := ih (processInRel db toID st rel) hstep.1 hf1
    exact ⟨hrest.1, le_trans hstep.2 hrest.2⟩

lemma expandRels_inv (db : AssetDB) (domains : List String) (a : ARecord) (label : String)
    (id : Nat) (st1 : VizState) (hInv : Inv st1) (hid : id < st1.idx) :
    Inv (expandRels db domains a label id st1) ∧
      st1.idx ≤ (expandRels db domains a label id st1).idx := by
  simp only [expandRels]
  split
  · split
    · have h2 := processOutRels_inv db id
        (outgoingRelations db a (assetPolicy domains label a.kind).outRels) st1 hInv hid
      have h3 := processInRels_inv db id
        (incomingRelations db a (assetPolicy domains label a.kind).inRels) _
        h2.1 (lt_of_lt_of_le hid h2.2)
      exact ⟨h3.1, le_trans h2.2 h3.2⟩
    · exact processInRels_inv db id _ st1 hInv hid
  · split
    · exact processOutRels_inv db id _ st1 hInv hid
    · exact ⟨hInv, le_refl _⟩

lemma processAsset_inv (db : AssetDB) (domains : List String) (st : VizState) (a : ARecord)
    (hInv : Inv st) :
    Inv (processAsset db domains st a) ∧ st.idx ≤ (processAsset db domains st a).idx := by
  unfold processAsset
  split
  · exact ⟨hInv, le_refl _⟩
  · rename_i n hn
    split
    · rename_i hl
      have hid := newNode_id db st.idx (some a) n hn
      have hInv1 : Inv ⟨st.idx + 1, (n.Label, st.idx) :: st.nodeToIdx,
          st.nodes ++ [n], st.edges, st.next⟩ :=
        inv_insert st n st.edges st.next hInv hid hl
          (fun e he => by
            have := hInv.2.2.2.2 e he
            exact ⟨by omega, by omega⟩)
      have h2 := expandRels_inv db domains a n.Label st.idx _ hInv1 (Nat.lt_succ_self _)
      exact ⟨h2.1, le_trans (Nat.le_succ _) h2.2⟩
    · rename_i nid hl
      obtain ⟨hj, _⟩ := hInv.2.2.2.1 _ _ hl
      have hnid : nid < st.idx := by
        have := hInv.1
        omega
      exact expandRels_inv db domains a n.Label nid st hInv hnid

lemma foldl_processAsset_inv (db : AssetDB) (domains : List String) :
    ∀ (assets : List ARecord) (st : VizState), Inv st →
      Inv (assets.foldl (processAsset db domains) st) := by
  intro assets
  induction assets with
  | nil =>
    intro st h
    exact h
  | cons a rest ih =>
    intro st h
    exact ih _ (processAsset_inv db domains st a h).1

lemma vizLoop_inv (db : AssetDB) (domains : List String) :
    ∀ (fuel : Nat) (st : VizState), Inv st → Inv (vizLoop db domains fuel st) := by
  intro fuel
  induction fuel with
  | zero =>
    intro st h
    exact h
  | succ fuel ih =>
    intro st h
    unfold vizLoop
    split
    · exact h
    · exact ih _ (foldl_processAsset_inv db domains st.next _ h)

lemma vizFinalState_inv (domains : List String) (db : AssetDB) :
    Inv (vizFinalState domains db) := by
  have hInv0 : ∀ frontier : List ARecord, Inv ⟨0, [], [], [], frontier⟩ := by
    intro frontier
    refine ⟨rfl, ?_, ?_, ?_, ?_⟩ <;> simp [lookupA]
  unfold vizFinalState
  split
  · exact hInv0 []
  · split
    · exact hInv0 []
    · exact vizLoop_inv db domains _ _ (hInv0 _)

/-- Claim C1: every `VizData` call yields a node list with pairwise
distinct labels; the label-to-index table of the finished traversal maps
each label to the unique position of its node (the index assigned at first
appearance), and the label of each node maps back to its position. -/
theorem vizdata_labels_nodup (domains : List String) (db : AssetDB) :
    ((VizData domains db).fst.map Node.Label).Nodup ∧
    (∀ (l : String) (j : Nat),
      lookupA (vizFinalState domains db).nodeToIdx l = some j →
        ∃ h : j < (VizData domains db).fst.length, ((VizData domains db).fst[j]).Label = l) ∧
    (∀ (i : Nat) (h : i < (VizData domains db).fst.length),
      lookupA (vizFinalState domains db).nodeToIdx (((VizData domains db).fst[i]).Label) =
        some i) := by
  have hInv := vizFinalState_inv domains db
  refine ⟨?_, hInv.2.2.2.1, hInv.2.2.1⟩
  rw [List.nodup_iff_injective_get]
  intro i j hij
  have hi := hInv.2.2.1 i.val (by have := i.isLt; simpa using this)
  have hj := hInv.2.2.1 j.val (by have := j.isLt; simpa using this)
  have hlbl : ((VizData domains db).fst[i.val]).Label = ((VizData domains db).fst[j.val]).Label := by
    have hgi : ((VizData domains db).fst.map Node.Label).get i =
        ((VizData domains db).fst[i.val]).Label := by
      simp [List.getElem_map]
    have hgj : ((VizData domains db).fst.map Node.Label).get j =
        ((VizData domains db).fst[j.val]).Label := by
      simp [List.getElem_map]
    rw [← hgi, ← hgj, hij]
  have hilt : i.val < (vizFinalState domains db).nodes.length := by
    have := i.isLt
    simpa using this
  have hjlt : j.val < (vizFinalState domains db).nodes.length := by
    have := j.isLt
    simpa using this
  have hlbl2 : ((vizFinalState domains db).nodes[i.val]).Label =
      ((vizFinalState domains db).nodes[j.val]).Label := hlbl
  rw [hlbl2] at hi
  rw [hi] at hj
  have : i.val = j.val := by
    have := Option.some.inj hj
    omega
  exact Fin.ext this

/-- Claim C10: in every `VizData` output, the node at position `i` has ID
`i` (IDs are consecutive from 0 in output order), and the From and To of
every edge equal the ID of some node of the returned list. -/
theorem vizdata_ids_positional (domains : List String) (db : AssetDB) :
    (∀ (i : Nat) (h : i < (VizData domains db).fst.length),
      ((VizData domains db).fst[i]).ID = i) ∧
    (∀ e ∈ (VizData domains db).snd,
      (∃ a ∈ (VizData domains db).fst, a.ID = e.From) ∧
      (∃ b ∈ (VizData domains db).fst, b.ID = e.To)) := by
  have hInv := vizFinalState_inv domains db
  refine ⟨hInv.2.1, ?_⟩
  intro e he
  obtain ⟨hlen, hids, _, _, hedg⟩ := hInv
  obtain ⟨hF, hT⟩ := hedg e he
  have hFlen : e.From < (vizFinalState domains db).nodes.length := by omega
  have hTlen : e.To < (vizFinalState domains db).nodes.length := by omega
  constructor
  · exact ⟨(vizFinalState domains db).nodes[e.From], List.getElem_mem hFlen, hids e.From hFlen⟩
  · exact ⟨(vizFinalState domains db).nodes[e.To], List.getElem_mem hTlen, hids e.To hTlen⟩

end Oam
